import Mathlib

/-!
Verification of the agent-launch-toolkit example agents against their
specification.  The definitions below are shallow embeddings of the Python
source: the TTL cache, rate limiter and token-gating of
`examples/agents/data-agent.py`, the daily quota of
`examples/agents/tweet-agent.py`, the alert sweep of
`examples/agents/trading-agent.py`, the scoring engine of
`examples/genesis/analyst.py`, and the welcome-gift claim path of
`examples/agents/gifter-agent.py`.  Timestamps are modelled as integers
(seconds); Python floats are modelled as rationals where fractional values
occur.
-/

namespace AgentToolkit

/-! ### TTL Cache (`data-agent.py`, class `Cache`)

`Cache._data` is a Python `dict` mapping a key to a `(value, expires)` pair.
A `dict` preserves insertion order, keeps keys unique, and assignment to an
existing key overwrites in place.  We model it as an association list
together with the insertion-order-preserving update `insertAssoc`. -/

/-- One stored entry: `(key, (value, expires_at))`. -/
abbrev Entry (α : Type) := String × α × Int

/-- The expiry timestamp of an entry. -/
def entryExp {α : Type} (e : Entry α) : Int := e.2.2

/-- Python `dict` lookup on the association list. -/
def lookupKey {α : Type} (k : String) : List (Entry α) → Option (α × Int)
  | [] => none
  | e :: es => if e.1 = k then some e.2 else lookupKey k es

/-- Python `dict` assignment `d[k] = x`: overwrite in place if the key is
present, otherwise append at the end. -/
def insertAssoc {α : Type} (k : String) (x : α × Int) : List (Entry α) → List (Entry α)
  | [] => [(k, x)]
  | e :: es => if e.1 = k then (k, x) :: es else e :: insertAssoc k x es

/-- Python `del d[k]`. -/
def deleteKey {α : Type} (k : String) (d : List (Entry α)) : List (Entry α) :=
  d.filter (fun e => !(e.1 = k : Bool))

/-- `Cache.__init__`: the store and its `_max_size`. -/
structure Cache (α : Type) where
  data : List (Entry α)
  maxSize : Nat

/-- `Cache(max_size)` as constructed, starting empty. -/
def Cache.empty (α : Type) (maxSize : Nat) : Cache α := ⟨[], maxSize⟩

/-- `Cache.get`: return the value if `expires > time.time()`, else delete the
entry (if present) and return `None`.  `now` is the value of `time.time()` at
the call. -/
def Cache.get {α : Type} (c : Cache α) (now : Int) (k : String) : Option α × Cache α :=
  match lookupKey k c.data with
  | some (v, exp) =>
      if now < exp then (some v, c) else (none, ⟨deleteKey k c.data, c.maxSize⟩)
  | none => (none, c)

/-- The purge in `Cache.set`: delete every entry with `exp <= now`,
keeping exactly the entries with `now < exp`. -/
def purgeExpired {α : Type} (now : Int) (d : List (Entry α)) : List (Entry α) :=
  d.filter (fun e => decide (now < entryExp e))

/-- The comparison used by `sorted(..., key=lambda x: x[1][1])`. -/
def expLE {α : Type} (a b : Entry α) : Bool := decide (entryExp a ≤ entryExp b)

/-- The size-pressure eviction in `Cache.set`:
`to_drop = sorted(data.items(), key=expiry)[: n]`, then delete those keys. -/
def dropOldest {α : Type} (n : Nat) (d : List (Entry α)) : List (Entry α) :=
  let toDrop := ((d.mergeSort expLE).take n).map (·.1)
  d.filter (fun e => !(toDrop.contains e.1))

/-- `Cache.set(key, value, ttl)`: when at capacity, purge expired entries and,
if still at capacity, evict the oldest-expiring `max_size // 10` entries;
then store `(value, now + ttl)`. -/
def Cache.set {α : Type} (c : Cache α) (now : Int) (k : String) (v : α) (ttl : Int) :
    Cache α :=
  let d :=
    if c.maxSize ≤ c.data.length then
      let d1 := purgeExpired now c.data
      if c.maxSize ≤ d1.length then dropOldest (c.maxSize / 10) d1 else d1
    else c.data
  ⟨insertAssoc k (v, now + ttl) d, c.maxSize⟩

/-- A client-visible cache operation, tagged with the wall-clock time at which
it runs. -/
inductive CacheOp (α : Type) where
  | set (t : Int) (k : String) (v : α) (ttl : Int)
  | get (t : Int) (k : String)

/-- Apply one operation to the cache (the result value of a `get` is
discarded; only the state matters here). -/
def applyOp {α : Type} (c : Cache α) : CacheOp α → Cache α
  | .set t k v ttl => c.set t k v ttl
  | .get t k => (c.get t k).2

/-- Run a sequence of operations from a fresh `Cache(max_size)`. -/
def runOps (α : Type) (maxSize : Nat) (ops : List (CacheOp α)) : Cache α :=
  ops.foldl applyOp (Cache.empty α maxSize)

/-- The keys written by `set` operations in a sequence. -/
def setKeys {α : Type} : List (CacheOp α) → List String
  | [] => []
  | .set _ k _ _ :: ops => k :: setKeys ops
  | .get _ _ :: ops => setKeys ops

/-! Basic lemmas about the association-list dictionary. -/

theorem lookupKey_insertAssoc_self {α : Type} (k : String) (x : α × Int) :
    ∀ d : List (Entry α), lookupKey k (insertAssoc k x d) = some x := by
  intro d
  induction d with
  | nil => simp [insertAssoc, lookupKey]
  | cons e es ih =>
      by_cases h : e.1 = k
      · simp [insertAssoc, h, lookupKey]
      · simp [insertAssoc, h, lookupKey, ih]

theorem lookupKey_insertAssoc_ne {α : Type} (k k' : String) (x : α × Int)
    (hne : k' ≠ k) :
    ∀ d : List (Entry α), lookupKey k' (insertAssoc k x d) = lookupKey k' d := by
  intro d
  have hne' : ¬ (k = k') := fun h => hne h.symm
  induction d with
  | nil => simp [insertAssoc, lookupKey, hne']
  | cons e es ih =>
      by_cases h : e.1 = k
      · have h2 : ¬ (e.1 = k') := by rw [h]; exact hne'
        simp [insertAssoc, h, lookupKey, hne', h2]
      · simp only [insertAssoc, h, if_false, lookupKey]
        by_cases h2 : e.1 = k'
        · simp [h2]
        · simp [h2, ih]

theorem lookupKey_eq_none_of_not_mem {α : Type} (k : String)
    (d : List (Entry α)) (h : ∀ e ∈ d, e.1 ≠ k) : lookupKey k d = none := by
  induction d with
  | nil => rfl
  | cons e es ih =>
      have h1 : e.1 ≠ k := h e (by simp)
      simp only [lookupKey, h1, if_false]
      exact ih fun e' he' => h e' (by simp [he'])

theorem length_insertAssoc_le {α : Type} (k : String) (x : α × Int) :
    ∀ d : List (Entry α), (insertAssoc k x d).length ≤ d.length + 1 := by
  intro d
  induction d with
  | nil => simp [insertAssoc]
  | cons e es ih =>
      by_cases h : e.1 = k
      · simp [insertAssoc, h]
      · simpa [insertAssoc, h, Nat.succ_le_succ_iff] using ih

/-! Invariants of reachable cache states: keys that were never `set` are
absent, and `get` only answers from an entry whose expiry is in the future. -/

theorem not_mem_keys_purgeExpired {α : Type} (k : String) (now : Int)
    (d : List (Entry α)) (h : ∀ e ∈ d, e.1 ≠ k) :
    ∀ e ∈ purgeExpired now d, e.1 ≠ k := by
  intro e he
  exact h e (List.mem_of_mem_filter he)

theorem not_mem_keys_dropOldest {α : Type} (k : String) (n : Nat)
    (d : List (Entry α)) (h : ∀ e ∈ d, e.1 ≠ k) :
    ∀ e ∈ dropOldest n d, e.1 ≠ k := by
  intro e he
  exact h e (List.mem_of_mem_filter he)

theorem not_mem_keys_insertAssoc {α : Type} (k k' : String) (x : α × Int)
    (hne : k' ≠ k) :
    ∀ (d : List (Entry α)), (∀ e ∈ d, e.1 ≠ k) →
      ∀ e ∈ insertAssoc k' x d, e.1 ≠ k := by
  intro d
  induction d with
  | nil =>
      intro _ e he
      simp only [insertAssoc, List.mem_singleton] at he
      subst he; exact hne
  | cons a as ih =>
      intro h e he
      by_cases ha : a.1 = k'
      · simp only [insertAssoc, ha, if_true, List.mem_cons] at he
        rcases he with he | he
        · subst he; exact hne
        · exact h _ (by simp [he])
      · simp only [insertAssoc, ha, if_false, List.mem_cons] at he
        rcases he with he | he
        · subst he; exact h _ (by simp)
        · exact ih (fun e' he' => h e' (by simp [he'])) e he

theorem not_mem_keys_applyOp {α : Type} (k : String) (c : Cache α)
    (op : CacheOp α) (hop : ∀ k' ∈ setKeys [op], k' ≠ k)
    (h : ∀ e ∈ c.data, e.1 ≠ k) : ∀ e ∈ (applyOp c op).data, e.1 ≠ k := by
  cases op with
  | set t k' v ttl =>
      have hk' : k' ≠ k := hop k' (by simp [setKeys])
      intro e he
      simp only [applyOp, Cache.set] at he
      by_cases hfull : c.maxSize ≤ c.data.length
      · simp only [hfull, if_true] at he
        by_cases hfull2 : c.maxSize ≤ (purgeExpired t c.data).length
        · simp only [hfull2, if_true] at he
          exact not_mem_keys_insertAssoc k k' _ hk' _
            (not_mem_keys_dropOldest k _ _ (not_mem_keys_purgeExpired k t c.data h)) e he
        · simp only [hfull2, if_false] at he
          exact not_mem_keys_insertAssoc k k' _ hk' _
            (not_mem_keys_purgeExpired k t c.data h) e he
      · simp only [hfull, if_false] at he
        exact not_mem_keys_insertAssoc k k' _ hk' _ h e he
  | get t k' =>
      intro e he
      simp only [applyOp, Cache.get] at he
      cases hl : lookupKey k' c.data with
      | none => exact h e (by simpa [hl] using he)
      | some p =>
          rw [hl] at he
          by_cases ht : t < p.2
          · exact h e (by simpa [ht] using he)
          · simp only [ht, if_false] at he
            exact h e (List.mem_of_mem_filter he)

theorem not_mem_keys_runOps {α : Type} (maxSize : Nat) (k : String)
    (ops : List (CacheOp α)) (h : ∀ k' ∈ setKeys ops, k' ≠ k) :
    ∀ e ∈ (runOps α maxSize ops).data, e.1 ≠ k := by
  suffices H : ∀ (c : Cache α), (∀ e ∈ c.data, e.1 ≠ k) →
      ∀ e ∈ (ops.foldl applyOp c).data, e.1 ≠ k by
    exact H (Cache.empty α maxSize) (by simp [Cache.empty])
  induction ops with
  | nil => intro c hc; simpa using hc
  | cons op ops ih =>
      intro c hc
      simp only [List.foldl_cons]
      have hop : ∀ k' ∈ setKeys [op], k' ≠ k := by
        intro k' hk'
        apply h
        cases op with
        | set t k0 v ttl =>
            simp only [setKeys, List.mem_singleton] at hk'
            simp [setKeys, hk']
        | get t k0 => simp [setKeys] at hk'
      refine ih ?_ _ (not_mem_keys_applyOp k c op hop hc)
      intro k' hk'
      apply h
      cases op with
      | set t k0 v ttl => simp [setKeys, hk']
      | get t k0 => simpa [setKeys] using hk'

/-! Properties of the size-pressure eviction.  `mergeSort` is a stable sort,
so the Python `sorted(...)[:n]` prefix consists of the `n` oldest-expiring
entries; with distinct keys (a `dict` invariant) deleting those keys removes
exactly those entries. -/

theorem expLE_trans {α : Type} (a b c : Entry α) :
    expLE a b → expLE b c → expLE a c := by
  simp only [expLE, decide_eq_true_eq]
  exact le_trans

theorem expLE_total {α : Type} (a b : Entry α) : expLE a b || expLE b a := by
  simp only [expLE, Bool.or_eq_true, decide_eq_true_eq]
  exact le_total _ _

theorem mem_dropOldest {α : Type} (n : Nat) (d : List (Entry α)) (e : Entry α) :
    e ∈ dropOldest n d ↔
      e ∈ d ∧ e.1 ∉ ((d.mergeSort expLE).take n).map Prod.fst := by
  simp [dropOldest, List.mem_filter]

theorem take_drop_keys_disjoint {α : Type} (n : Nat) (d : List (Entry α))
    (hnd : (d.map Prod.fst).Nodup) :
    List.Disjoint (((d.mergeSort expLE).take n).map Prod.fst)
      (((d.mergeSort expLE).drop n).map Prod.fst) := by
  have perm : List.Perm (d.mergeSort expLE) d := List.mergeSort_perm d expLE
  have hndS : ((d.mergeSort expLE).map Prod.fst).Nodup :=
    ((perm.map Prod.fst).nodup_iff).2 hnd
  have hsplit : (d.mergeSort expLE).take n ++ (d.mergeSort expLE).drop n
      = d.mergeSort expLE := List.take_append_drop n _
  rw [← hsplit, List.map_append, List.nodup_append] at hndS
  exact hndS.2.2

theorem mem_dropOldest_iff {α : Type} (n : Nat) (d : List (Entry α))
    (hnd : (d.map Prod.fst).Nodup) (e : Entry α) :
    e ∈ dropOldest n d ↔ e ∈ (d.mergeSort expLE).drop n := by
  have perm : List.Perm (d.mergeSort expLE) d := List.mergeSort_perm d expLE
  have hsplit : (d.mergeSort expLE).take n ++ (d.mergeSort expLE).drop n
      = d.mergeSort expLE := List.take_append_drop n _
  rw [mem_dropOldest n d e]
  constructor
  · rintro ⟨hed, hkey⟩
    have hes : e ∈ d.mergeSort expLE := perm.mem_iff.2 hed
    rw [← hsplit, List.mem_append] at hes
    rcases hes with h | h
    · exact absurd (List.mem_map_of_mem Prod.fst h) hkey
    · exact h
  · intro hdrop
    have hes : e ∈ d.mergeSort expLE := by
      rw [← hsplit, List.mem_append]; exact Or.inr hdrop
    refine ⟨perm.mem_iff.1 hes, fun hkey => ?_⟩
    exact take_drop_keys_disjoint n d hnd hkey
      (List.mem_map_of_mem Prod.fst hdrop)

theorem contains_eq_true_iff {a : String} {l : List String} :
    l.contains a = true ↔ a ∈ l := by
  simp [List.contains_iff_exists_mem_beq]

theorem length_dropOldest {α : Type} (n : Nat) (d : List (Entry α))
    (hnd : (d.map Prod.fst).Nodup) :
    (dropOldest n d).length = d.length - n := by
  have perm : List.Perm (d.mergeSort expLE) d := List.mergeSort_perm d expLE
  have hsplit : (d.mergeSort expLE).take n ++ (d.mergeSort expLE).drop n
      = d.mergeSort expLE := List.take_append_drop n _
  have hlen : (dropOldest n d).length
      = ((d.mergeSort expLE).filter
          (fun e => !((((d.mergeSort expLE).take n).map Prod.fst).contains e.1))).length := by
    unfold dropOldest
    exact (List.Perm.length_eq (List.Perm.filter _ perm)).symm
  have htake : ((d.mergeSort expLE).take n).filter
      (fun e => !((((d.mergeSort expLE).take n).map Prod.fst).contains e.1)) = [] := by
    rw [List.filter_eq_nil_iff]
    intro a ha
    have hc : (((d.mergeSort expLE).take n).map Prod.fst).contains a.1 = true :=
      contains_eq_true_iff.2 (List.mem_map_of_mem Prod.fst ha)
    rw [hc]
    simp
  have hdrop : ((d.mergeSort expLE).drop n).filter
      (fun e => !((((d.mergeSort expLE).take n).map Prod.fst).contains e.1)) =
      (d.mergeSort expLE).drop n := by
    rw [List.filter_eq_self]
    intro a ha
    have hnotin : a.1 ∉ ((d.mergeSort expLE).take n).map Prod.fst :=
      fun h => take_drop_keys_disjoint n d hnd h (List.mem_map_of_mem Prod.fst ha)
    have hfalse : (((d.mergeSort expLE).take n).map Prod.fst).contains a.1 = false := by
      rw [Bool.eq_false_iff]
      intro hc
      exact hnotin (contains_eq_true_iff.1 hc)
    rw [hfalse]
    rfl
  calc (dropOldest n d).length
      = ((d.mergeSort expLE).filter
          (fun e => !((((d.mergeSort expLE).take n).map Prod.fst).contains e.1))).length := hlen
    _ = (((d.mergeSort expLE).take n ++ (d.mergeSort expLE).drop n).filter
          (fun e => !((((d.mergeSort expLE).take n).map Prod.fst).contains e.1))).length := by
          rw [hsplit]
    _ = ((d.mergeSort expLE).drop n).length := by
          rw [List.filter_append, htake, hdrop, List.nil_append]
    _ = d.length - n := by
          rw [List.length_drop, List.length_mergeSort]

theorem dropOldest_drops_oldest {α : Type} (n : Nat) (d : List (Entry α))
    (hnd : (d.map Prod.fst).Nodup) :
    ∀ e ∈ dropOldest n d, ∀ e' ∈ d, e' ∉ dropOldest n d →
      entryExp e' ≤ entryExp e := by
  intro e he e' he' hne
  have perm : List.Perm (d.mergeSort expLE) d := List.mergeSort_perm d expLE
  have hsplit : (d.mergeSort expLE).take n ++ (d.mergeSort expLE).drop n
      = d.mergeSort expLE := List.take_append_drop n _
  have sorted : (d.mergeSort expLE).Pairwise (fun a b => expLE a b) :=
    List.sorted_mergeSort expLE_trans expLE_total d
  have hedrop : e ∈ (d.mergeSort expLE).drop n := (mem_dropOldest_iff n d hnd e).1 he
  have hes : e' ∈ d.mergeSort expLE := perm.mem_iff.2 he'
  rw [← hsplit, List.mem_append] at hes
  rcases hes with h | h
  · rw [← hsplit] at sorted
    have hr := (List.pairwise_append.1 sorted).2.2 e' h e hedrop
    simpa [expLE, decide_eq_true_eq] using hr
  · exact absurd ((mem_dropOldest_iff n d hnd e').2 h) hne

theorem nodup_keys_filter {α : Type} (p : Entry α → Bool) (d : List (Entry α))
    (hnd : (d.map Prod.fst).Nodup) : ((d.filter p).map Prod.fst).Nodup :=
  List.Nodup.sublist ((d.filter_sublist).map Prod.fst) hnd

theorem mem_keys_insertAssoc {α : Type} (k : String) (x : α × Int) (a : String) :
    ∀ d : List (Entry α),
      a ∈ (insertAssoc k x d).map Prod.fst → a = k ∨ a ∈ d.map Prod.fst := by
  intro d
  induction d with
  | nil => intro h; simp only [insertAssoc, List.map_cons, List.map_nil] at h; simpa using h
  | cons e es ih =>
      intro h
      by_cases he : e.1 = k
      · simp only [insertAssoc, he, if_true, List.map_cons, List.mem_cons] at h
        rcases h with h | h
        · exact Or.inl h
        · exact Or.inr (by simp [h])
      · simp only [insertAssoc, he, if_false, List.map_cons, List.mem_cons] at h
        rcases h with h | h
        · exact Or.inr (by simp [h])
        · rcases ih h with h' | h'
          · exact Or.inl h'
          · exact Or.inr (by simp [h'])

theorem nodup_keys_insertAssoc {α : Type} (k : String) (x : α × Int) :
    ∀ d : List (Entry α), (d.map Prod.fst).Nodup →
      ((insertAssoc k x d).map Prod.fst).Nodup := by
  intro d
  induction d with
  | nil => intro _; simp [insertAssoc]
  | cons e es ih =>
      intro hnd
      rw [List.map_cons, List.nodup_cons] at hnd
      by_cases he : e.1 = k
      · simp only [insertAssoc, he, if_true, List.map_cons, List.nodup_cons]
        exact ⟨he ▸ hnd.1, hnd.2⟩
      · simp only [insertAssoc, he, if_false, List.map_cons, List.nodup_cons]
        refine ⟨fun hmem => ?_, ih hnd.2⟩
        rcases mem_keys_insertAssoc k x e.1 es hmem with h | h
        · exact he h
        · exact hnd.1 h

/-- C1: For every cache state reachable by any sequence of `set` and `get`
operations, a `get` on a key that was never set returns `None`, and whenever
`get` returns a value the stored `expires_at` of that entry is strictly in
the future (`get` never returns an entry whose expiry has passed). -/
theorem cache_get_never_expired {α : Type} (maxSize : Nat)
    (ops : List (CacheOp α)) (now : Int) (k : String) :
    (k ∉ setKeys ops → ((runOps α maxSize ops).get now k).1 = none) ∧
    (∀ v : α, ((runOps α maxSize ops).get now k).1 = some v →
      ∃ exp : Int, lookupKey k (runOps α maxSize ops).data = some (v, exp) ∧
        now < exp) := by
  constructor
  · intro hk
    have habs : ∀ e ∈ (runOps α maxSize ops).data, e.1 ≠ k :=
      not_mem_keys_runOps maxSize k ops (fun k' hk' heq => hk (heq ▸ hk'))
    have hl : lookupKey k (runOps α maxSize ops).data = none :=
      lookupKey_eq_none_of_not_mem k _ habs
    simp [Cache.get, hl]
  · intro v hv
    unfold Cache.get at hv
    cases hl : lookupKey k (runOps α maxSize ops).data with
    | none => rw [hl] at hv; simp at hv
    | some p =>
        rw [hl] at hv
        by_cases ht : now < p.2
        · refine ⟨p.2, ?_, ht⟩
          have hpv : p.1 = v := by simpa [ht] using hv
          subst hpv
          rfl
        · simp [ht] at hv

theorem cache_get_never_expired_witness :
    ((runOps Nat 10 [CacheOp.set 0 "a" 1 5]).get 3 "b").1 = none :=
  (cache_get_never_expired 10 [CacheOp.set 0 "a" 1 5] 3 "b").1 (by decide)

/-- C2: After `cache.set(k, v, ttl)`, a `get` of `k` performed `d` seconds
later returns `v` whenever `d < ttl` (no intervening operation on the state),
and returns `None` once `ttl ≤ d`. -/
theorem cache_set_then_get {α : Type} (c : Cache α) (now : Int) (k : String)
    (v : α) (ttl d : Int) :
    (d < ttl → ((c.set now k v ttl).get (now + d) k).1 = some v) ∧
    (ttl ≤ d → ((c.set now k v ttl).get (now + d) k).1 = none) := by
  have hl : lookupKey k (c.set now k v ttl).data = some (v, now + ttl) := by
    unfold Cache.set
    exact lookupKey_insertAssoc_self k (v, now + ttl) _
  constructor
  · intro hd
    have ht : now + d < now + ttl := by omega
    simp [Cache.get, hl, ht]
  · intro hd
    have ht : ¬ (now + d < now + ttl) := by omega
    simp [Cache.get, hl, ht]

theorem cache_set_then_get_witness :
    (((Cache.empty Nat 10).set 0 "k" 7 5).get 3 "k").1 = some 7 ∧
    (((Cache.empty Nat 10).set 0 "k" 7 5).get 5 "k").1 = none :=
  ⟨(cache_set_then_get (Cache.empty Nat 10) 0 "k" 7 5 3).1 (by decide),
   (cache_set_then_get (Cache.empty Nat 10) 0 "k" 7 5 5).2 (by decide)⟩

/-- C3: On `set` at capacity, the cache first removes exactly the entries
whose expiry has passed; if the count is still at capacity it removes the
`max_size // 10` entries with the earliest expiry times before inserting;
a `set` below capacity evicts nothing. -/
theorem cache_set_eviction_policy {α : Type} (c : Cache α) (now : Int)
    (k : String) (v : α) (ttl : Int)
    (hnd : (c.data.map Prod.fst).Nodup) :
    (c.data.length < c.maxSize →
      (c.set now k v ttl).data = insertAssoc k (v, now + ttl) c.data) ∧
    (c.maxSize ≤ c.data.length →
      (∀ e, e ∈ purgeExpired now c.data ↔ e ∈ c.data ∧ now < entryExp e) ∧
      ((purgeExpired now c.data).length < c.maxSize →
        (c.set now k v ttl).data
          = insertAssoc k (v, now + ttl) (purgeExpired now c.data)) ∧
      (c.maxSize ≤ (purgeExpired now c.data).length →
        (c.set now k v ttl).data
          = insertAssoc k (v, now + ttl)
              (dropOldest (c.maxSize / 10) (purgeExpired now c.data)) ∧
        (dropOldest (c.maxSize / 10) (purgeExpired now c.data)).length
          = (purgeExpired now c.data).length - c.maxSize / 10 ∧
        (∀ e ∈ dropOldest (c.maxSize / 10) (purgeExpired now c.data),
          ∀ e' ∈ purgeExpired now c.data,
            e' ∉ dropOldest (c.maxSize / 10) (purgeExpired now c.data) →
              entryExp e' ≤ entryExp e))) := by
  have hndp : ((purgeExpired now c.data).map Prod.fst).Nodup :=
    nodup_keys_filter _ c.data hnd
  refine ⟨?_, fun hfull => ⟨?_, ?_, fun hfull2 => ⟨?_, ?_, ?_⟩⟩⟩
  · intro hlt
    simp only [Cache.set]
    rw [if_neg (by omega)]
  · intro e
    simp [purgeExpired, List.mem_filter, entryExp]
  · intro hlt
    simp only [Cache.set]
    rw [if_pos hfull, if_neg (by omega)]
  · simp only [Cache.set]
    rw [if_pos hfull, if_pos hfull2]
  · exact length_dropOldest _ _ hndp
  · exact dropOldest_drops_oldest _ _ hndp

theorem cache_set_eviction_policy_witness :
    ((Cache.mk [("a", (1 : Nat), (5 : Int)), ("b", 2, 3)] 2).set 10 "c" 7 60).data
      = insertAssoc "c" (7, 70)
          (purgeExpired 10 [("a", (1 : Nat), (5 : Int)), ("b", 2, 3)]) :=
  ((cache_set_eviction_policy (Cache.mk [("a", (1 : Nat), (5 : Int)), ("b", 2, 3)] 2)
    10 "c" 7 60 (by decide)).2 (by decide)).2.1 (by decide)

/-- The cache invariant behind C10: keys are distinct (a Python `dict`
invariant) and the entry count is bounded by `max_size`. -/
def CacheInv {α : Type} (c : Cache α) : Prop :=
  (c.data.map Prod.fst).Nodup ∧ c.data.length ≤ c.maxSize

theorem cacheInv_set {α : Type} (c : Cache α) (now : Int) (k : String)
    (v : α) (ttl : Int) (h10 : 1 ≤ c.maxSize / 10) (hinv : CacheInv c) :
    CacheInv (c.set now k v ttl) := by
  obtain ⟨hnd, hlen⟩ := hinv
  have hndp : ((purgeExpired now c.data).map Prod.fst).Nodup :=
    nodup_keys_filter _ c.data hnd
  have hplen : (purgeExpired now c.data).length ≤ c.data.length :=
    List.length_filter_le _ c.data
  constructor
  · simp only [Cache.set]
    by_cases hfull : c.maxSize ≤ c.data.length
    · rw [if_pos hfull]
      by_cases hfull2 : c.maxSize ≤ (purgeExpired now c.data).length
      · rw [if_pos hfull2]
        exact nodup_keys_insertAssoc _ _ _ (nodup_keys_filter _ _ hndp)
      · rw [if_neg hfull2]
        exact nodup_keys_insertAssoc _ _ _ hndp
    · rw [if_neg hfull]
      exact nodup_keys_insertAssoc _ _ _ hnd
  · simp only [Cache.set]
    by_cases hfull : c.maxSize ≤ c.data.length
    · rw [if_pos hfull]
      by_cases hfull2 : c.maxSize ≤ (purgeExpired now c.data).length
      · rw [if_pos hfull2]
        have hdl : (dropOldest (c.maxSize / 10) (purgeExpired now c.data)).length
            = (purgeExpired now c.data).length - c.maxSize / 10 :=
          length_dropOldest _ _ hndp
        have hle := length_insertAssoc_le k (v, now + ttl)
          (dropOldest (c.maxSize / 10) (purgeExpired now c.data))
        omega
      · rw [if_neg hfull2]
        have hle := length_insertAssoc_le k (v, now + ttl) (purgeExpired now c.data)
        omega
    · rw [if_neg hfull]
      have hle := length_insertAssoc_le k (v, now + ttl) c.data
      omega

theorem cacheInv_get {α : Type} (c : Cache α) (now : Int) (k : String)
    (hinv : CacheInv c) : CacheInv (c.get now k).2 := by
  obtain ⟨hnd, hlen⟩ := hinv
  unfold Cache.get
  cases hl : lookupKey k c.data with
  | none => exact ⟨hnd, hlen⟩
  | some p =>
      by_cases ht : now < p.2
      · simp only [ht, if_true]
        exact ⟨hnd, hlen⟩
      · simp only [ht, if_false]
        refine ⟨nodup_keys_filter _ c.data hnd, ?_⟩
        exact le_trans (List.length_filter_le _ c.data) hlen

/-- C10: For a cache constructed with `max_size = 1000` (as the module-level
instance is), the entry count never exceeds `max_size` across any sequence of
`set`/`get` operations, and the stored keys stay distinct. -/
theorem cache_size_bound {α : Type} (ops : List (CacheOp α)) :
    (runOps α 1000 ops).data.length ≤ 1000 ∧
    ((runOps α 1000 ops).data.map Prod.fst).Nodup := by
  have H : ∀ (ops : List (CacheOp α)) (c : Cache α), c.maxSize = 1000 →
      CacheInv c → CacheInv (ops.foldl applyOp c) := by
    intro ops
    induction ops with
    | nil => intro c _ hinv; exact hinv
    | cons op ops ih =>
        intro c hms hinv
        rw [List.foldl_cons]
        have hms' : (applyOp c op).maxSize = 1000 := by
          cases op with
          | set t k v ttl => simpa [applyOp, Cache.set] using hms
          | get t k =>
              simp only [applyOp, Cache.get]
              cases hl : lookupKey k c.data with
              | none => exact hms
              | some p =>
                  by_cases ht : t < p.2
                  · simpa [ht] using hms
                  · simpa [ht] using hms
        refine ih _ hms' ?_
        cases op with
        | set t k v ttl =>
            exact cacheInv_set c t k v ttl (by rw [hms]; decide) hinv
        | get t k => exact cacheInv_get c t k hinv
  have h := H ops (Cache.empty α 1000) rfl ⟨by simp [Cache.empty], by simp [Cache.empty]⟩
  have hms : (runOps α 1000 ops).maxSize = 1000 := by
    have : ∀ (ops : List (CacheOp α)) (c : Cache α),
        (ops.foldl applyOp c).maxSize = c.maxSize := by
      intro ops
      induction ops with
      | nil => intro c; rfl
      | cons op ops ih =>
          intro c
          rw [List.foldl_cons, ih]
          cases op with
          | set t k v ttl => simp [applyOp, Cache.set]
          | get t k =>
              simp only [applyOp, Cache.get]
              cases hl : lookupKey k c.data with
              | none => rfl
              | some p =>
                  by_cases ht : t < p.2
                  · simp [ht]
                  · simp [ht]
    exact this ops (Cache.empty α 1000)
  obtain ⟨hnd, hlen⟩ := h
  exact ⟨le_trans hlen (le_of_eq hms), hnd⟩

/-! ### Sliding-window rate limiter
(`price-monitor-agent.py`, `check_rate_limit`; the rate-gate portion of
`Security.check` in `data-agent.py` is the same code).  The per-sender state
is the sender's timestamp list in the `rate_limits` defaultdict. -/

/-- The pruning step: keep timestamps with `now - t < 60`. -/
def ratePrune (now : Int) (l : List Int) : List Int :=
  l.filter (fun t => decide (now - t < 60))

/-- `check_rate_limit`: prune, then reject (without appending) if the pruned
list has reached the per-minute limit, else append `now` and allow.  Returns
`(error message or none, new timestamp list)`. -/
def check_rate_limit (limit : Nat) (now : Int) (l : List Int) :
    Option String × List Int :=
  let p := ratePrune now l
  if limit ≤ p.length then (some "Rate limit exceeded. Please wait a moment.", p)
  else (none, p ++ [now])

/-- Process a sequence of requests from one sender, oldest first. -/
def runRate (limit : Nat) (st : List Int) : List Int → List (Option String) × List Int
  | [] => ([], st)
  | t :: ts =>
      let r := check_rate_limit limit t st
      let rest := runRate limit r.2 ts
      (r.1 :: rest.1, rest.2)

theorem runRate_append (limit : Nat) (st : List Int) (xs ys : List Int) :
    runRate limit st (xs ++ ys) =
      ((runRate limit st xs).1 ++ (runRate limit (runRate limit st xs).2 ys).1,
       (runRate limit (runRate limit st xs).2 ys).2) := by
  induction xs generalizing st with
  | nil => simp [runRate]
  | cons x xs ih => simp [runRate, ih]

/-- Within a 60-second window, requests below the limit are all allowed and
simply accumulate in the sender's list. -/
theorem runRate_all_allowed (limit : Nat) :
    ∀ (ts st : List Int),
      (st ++ ts).Pairwise (fun a b => b - a < 60) →
      st.length + ts.length ≤ limit →
      runRate limit st ts = (ts.map (fun _ => none), st ++ ts) := by
  intro ts
  induction ts with
  | nil => intro st _ _; simp [runRate]
  | cons t ts ih =>
      intro st hpw hlen
      have hwin : ∀ s ∈ st, t - s < 60 := by
        intro s hs
        exact (List.pairwise_append.1 hpw).2.2 s hs t (by simp)
      have hprune : ratePrune t st = st := by
        rw [ratePrune, List.filter_eq_self]
        intro s hs
        exact decide_eq_true (hwin s hs)
      have hlt : ¬ (limit ≤ st.length) := by
        simp only [List.length_cons] at hlen
        omega
      have hstep : check_rate_limit limit t st = (none, st ++ [t]) := by
        simp [check_rate_limit, hprune, hlt]
      have hpw' : ((st ++ [t]) ++ ts).Pairwise (fun a b : Int => b - a < 60) := by
        rw [List.append_assoc, List.singleton_append]
        exact hpw
      have hlen' : (st ++ [t]).length + ts.length ≤ limit := by
        simp only [List.length_append, List.length_singleton]
        simp only [List.length_cons] at hlen
        omega
      rw [runRate, hstep]
      simp only
      rw [ih (st ++ [t]) hpw' hlen']
      simp [List.append_assoc]

/-- C4: the gate prunes to the trailing 60-second window; a sender issuing
`limit` requests inside a 60-second window has the `(limit+1)`-th request
rejected with the rate-limit error (nothing appended), and once the window
has rolled past all earlier timestamps a subsequent request succeeds. -/
theorem rate_limit_window (limit : Nat) (ts : List Int) (tN tNext : Int)
    (hpos : 1 ≤ limit) (hcount : ts.length = limit)
    (hwin : (ts ++ [tN]).Pairwise (fun a b => b - a < 60))
    (hroll : ∀ t ∈ ts, 60 ≤ tNext - t) :
    (∀ (l : List Int) (now t : Int),
       t ∈ ratePrune now l ↔ t ∈ l ∧ now - t < 60) ∧
    runRate limit [] (ts ++ [tN])
      = (List.replicate limit none
          ++ [some "Rate limit exceeded. Please wait a moment."], ts) ∧
    check_rate_limit limit tNext ts = (none, [tNext]) := by
  refine ⟨?_, ?_, ?_⟩
  · intro l now t
    simp [ratePrune, List.mem_filter]
  · have hfirst : runRate limit [] ts = (ts.map (fun _ => none), ts) := by
      have h := runRate_all_allowed limit ts []
      simp only [List.nil_append, List.length_nil, Nat.zero_add] at h
      exact h ((List.pairwise_append.1 hwin).1) (le_of_eq hcount)
    have hkeep : ratePrune tN ts = ts := by
      rw [ratePrune, List.filter_eq_self]
      intro s hs
      exact decide_eq_true ((List.pairwise_append.1 hwin).2.2 s hs tN (by simp))
    have hrej : check_rate_limit limit tN ts
        = (some "Rate limit exceeded. Please wait a moment.", ts) := by
      simp [check_rate_limit, hkeep, hcount]
    have hmap : ts.map (fun _ => (none : Option String)) = List.replicate limit none := by
      rw [List.map_const', hcount]
    rw [runRate_append, hfirst]
    simp only [runRate, hrej]
    rw [hmap]
  · have hempty : ratePrune tNext ts = [] := by
      rw [ratePrune, List.filter_eq_nil_iff]
      intro t ht
      have := hroll t ht
      simp only [decide_eq_true_eq]
      omega
    have hlt : ¬ (limit ≤ (0 : Nat)) := by omega
    simp [check_rate_limit, hempty, hlt]

theorem rate_limit_window_witness :
    runRate 2 [] ([0, 10] ++ [20])
      = (List.replicate 2 none
          ++ [some "Rate limit exceeded. Please wait a moment."], [0, 10]) ∧
    check_rate_limit 2 100 [0, 10] = (none, [100]) :=
  ⟨(rate_limit_window 2 [0, 10] 20 100 (by decide) (by decide) (by decide)
      (by decide)).2.1,
   (rate_limit_window 2 [0, 10] 20 100 (by decide) (by decide) (by decide)
      (by decide)).2.2⟩

/-! ### Daily quota (`tweet-agent.py`, `check_daily_quota`)

The hosting storage holds one counter per `(sender, calendar day)` under the
key `daily_{sender}_{today}`; we index the counter map by the
`(sender, day)` pair.  `free_tweets_per_day` and `premium_tweets_per_day`
are the configured `BUSINESS` limits (3 and 50 in the source); the error
message text is elided, only the allow/reject outcome is modelled. -/

/-- The per-tier limit chosen inside `check_daily_quota`. -/
def quotaLimit (freeL premL : Nat) (tier : String) : Nat :=
  if tier = "premium" then premL else freeL

/-- `check_daily_quota`: reject when the day's count has reached the tier
limit, else increment the counter and allow. -/
def check_daily_quota (freeL premL : Nat) (st : String × String → Nat)
    (sender tier day : String) : Bool × (String × String → Nat) :=
  let count := st (sender, day)
  if quotaLimit freeL premL tier ≤ count then (false, st)
  else (true, fun p => if p = (sender, day) then count + 1 else st p)

/-- Process a sequence of quota checks; each request is
`(sender, tier, day)`. -/
def runQuota (freeL premL : Nat) (st : String × String → Nat) :
    List (String × String × String) → List Bool × (String × String → Nat)
  | [] => ([], st)
  | (sender, tier, day) :: rs =>
      let r := check_daily_quota freeL premL st sender tier day
      let rest := runQuota freeL premL r.2 rs
      (r.1 :: rest.1, rest.2)

/-- Bump one counter by `m`. -/
def bumpQuota (st : String × String → Nat) (key : String × String) (m : Nat) :
    String × String → Nat :=
  fun p => if p = key then st p + m else st p

theorem runQuota_append (freeL premL : Nat) (st : String × String → Nat)
    (xs ys : List (String × String × String)) :
    runQuota freeL premL st (xs ++ ys) =
      ((runQuota freeL premL st xs).1
        ++ (runQuota freeL premL (runQuota freeL premL st xs).2 ys).1,
       (runQuota freeL premL (runQuota freeL premL st xs).2 ys).2) := by
  induction xs generalizing st with
  | nil => simp [runQuota]
  | cons x xs ih =>
      obtain ⟨sender, tier, day⟩ := x
      simp [runQuota, ih]

theorem runQuota_replicate_allowed (freeL premL : Nat) (sender day : String) :
    ∀ (m : Nat) (st : String × String → Nat),
      st (sender, day) + m ≤ quotaLimit freeL premL "free" →
      runQuota freeL premL st (List.replicate m (sender, "free", day))
        = (List.replicate m true, bumpQuota st (sender, day) m) := by
  intro m
  induction m with
  | zero =>
      intro st _
      have hb : bumpQuota st (sender, day) 0 = st := by
        funext p
        by_cases hp : p = (sender, day)
        · simp [bumpQuota, hp]
        · simp [bumpQuota, hp]
      simp [runQuota, hb]
  | succ m ih =>
      intro st hle
      have hlt : ¬ (quotaLimit freeL premL "free" ≤ st (sender, day)) := by omega
      have hstep : check_daily_quota freeL premL st sender "free" day
          = (true, bumpQuota st (sender, day) 1) := by
        simp only [check_daily_quota, hlt, if_false]
        refine congrArg (Prod.mk true) ?_
        funext p
        by_cases hp : p = (sender, day)
        · simp [bumpQuota, hp]
        · simp [bumpQuota, hp]
      have hkey : bumpQuota st (sender, day) 1 (sender, day) + m
          ≤ quotaLimit freeL premL "free" := by
        simp only [bumpQuota, if_pos rfl, if_true]
        omega
      have hrest := ih (bumpQuota st (sender, day) 1) hkey
      have hbb : bumpQuota (bumpQuota st (sender, day) 1) (sender, day) m
          = bumpQuota st (sender, day) (m + 1) := by
        funext p
        by_cases hp : p = (sender, day)
        · simp only [bumpQuota, hp, if_pos rfl, if_true]
          omega
        · simp [bumpQuota, hp]
      rw [List.replicate_succ]
      simp only [runQuota, hstep]
      rw [hrest, hbb, ← List.replicate_succ]

/-- C5: For a free-tier sender with configured daily limit `N`, the first `N`
requests of a calendar day are allowed, the `(N+1)`-th request on the same day
is rejected, and the first request on a different (next) day is allowed again:
the counter is keyed by `(sender, day)` and so resets implicitly when the day
string changes. -/
theorem daily_quota_resets (N premL : Nat) (sender day day' : String)
    (hN : 1 ≤ N) (hday : day' ≠ day) :
    (runQuota N premL (fun _ => 0)
      (List.replicate N (sender, "free", day)
        ++ [(sender, "free", day), (sender, "free", day')])).1
      = List.replicate N true ++ [false, true] := by
  have hq : quotaLimit N premL "free" = N := by simp [quotaLimit]
  have h1 := runQuota_replicate_allowed N premL sender day N (fun _ => 0)
    (by simp [hq])
  have hcount1 : bumpQuota (fun _ => 0) (sender, day) N (sender, day) = N := by
    simp [bumpQuota]
  have hrej : check_daily_quota N premL (bumpQuota (fun _ => 0) (sender, day) N)
      sender "free" day = (false, bumpQuota (fun _ => 0) (sender, day) N) := by
    have hge : quotaLimit N premL "free"
        ≤ bumpQuota (fun _ => 0) (sender, day) N (sender, day) := by
      rw [hq, hcount1]
    simp [check_daily_quota, hge]
  have hpair : ((sender, day') : String × String) ≠ (sender, day) := by
    intro h
    exact hday (congrArg Prod.snd h)
  have hcount2 : bumpQuota (fun _ => 0) (sender, day) N (sender, day') = 0 := by
    simp [bumpQuota, hpair]
  have hallow : (check_daily_quota N premL (bumpQuota (fun _ => 0) (sender, day) N)
      sender "free" day').1 = true := by
    have h0 : ¬ (quotaLimit N premL "free"
        ≤ bumpQuota (fun _ => 0) (sender, day) N (sender, day')) := by
      rw [hq, hcount2]
      omega
    simp [check_daily_quota, h0]
  rw [runQuota_append, h1]
  simp only [runQuota, hrej]
  simp [hallow]

theorem daily_quota_resets_witness :
    (runQuota 2 50 (fun _ => 0)
      (List.replicate 2 ("s", "free", "2024-01-01")
        ++ [("s", "free", "2024-01-01"), ("s", "free", "2024-01-02")])).1
      = List.replicate 2 true ++ [false, true] :=
  daily_quota_resets 2 50 "s" "2024-01-01" "2024-01-02" (by decide) (by decide)

/-! ### Price alerts (`trading-agent.py`, `create_alert` / `check_alerts`)

An alert dict as built by `create_alert`; prices and thresholds are Python
floats, modelled as rationals.  The periodic sweep `check_alerts` iterates
the owner's alert list, skipping alerts that are not
`active and not triggered`; for the rest it fetches the current price
(`none` models a failed/empty `get_token_data`), compares against the
threshold, and on a hit sets `triggered = True` and emits one notification
(the `Bool` in the result). -/

structure Alert where
  id : Nat
  token : String
  condition : String
  threshold : Rat
  created : String
  triggered : Bool
  active : Bool
deriving DecidableEq

/-- The alert dict created by `create_alert` for the `(len(alerts)+1)`-th
alert. -/
def create_alert (nprev : Nat) (tokenName condition : String) (threshold : Rat)
    (created : String) : Alert :=
  { id := nprev + 1, token := tokenName, condition := condition,
    threshold := threshold, created := created,
    triggered := false, active := true }

/-- The trigger test of the sweep: `above` fires at `price >= threshold`,
`below` fires at `price <= threshold`. -/
def alertConditionMet (a : Alert) (price : Rat) : Bool :=
  (a.condition = "above" && decide (a.threshold ≤ price))
    || (a.condition = "below" && decide (price ≤ a.threshold))

/-- One alert's treatment during `check_alerts`: alerts that are not
(`active` and not `triggered`) are skipped; otherwise the price is fetched
(`none` = no data, skip) and on a hit the alert is marked triggered and one
notification is sent (`true` in the second component). -/
def sweepAlert (price : String → Option Rat) (a : Alert) : Alert × Bool :=
  if a.active && !a.triggered then
    match price a.token with
    | none => (a, false)
    | some p =>
        if alertConditionMet a p then ({ a with triggered := true }, true)
        else (a, false)
  else (a, false)

/-- The sweep over one owner's alert list. -/
def check_alerts (price : String → Option Rat) (alerts : List Alert) :
    List (Alert × Bool) :=
  alerts.map (sweepAlert price)

/-- C6: once a sweep finds an alert's condition met, exactly one notification
is produced for that entry and its `triggered` flag becomes true; any
subsequent sweep (under any price feed) leaves the entry unchanged and emits
no further notification, because sweeps only consider alerts that are active
and not yet triggered. -/
theorem alert_fires_once (a : Alert) (price : String → Option Rat) (p : Rat)
    (ha : a.active = true) (ht : a.triggered = false)
    (hp : price a.token = some p) (hm : alertConditionMet a p = true) :
    sweepAlert price a = ({ a with triggered := true }, true) ∧
    (∀ price' : String → Option Rat,
      sweepAlert price' { a with triggered := true }
        = ({ a with triggered := true }, false)) ∧
    (∀ alerts : List Alert, a ∈ alerts →
      ({ a with triggered := true }, true) ∈ check_alerts price alerts) := by
  refine ⟨?_, ?_, ?_⟩
  · simp [sweepAlert, ha, ht, hp, hm]
  · intro price'
    simp [sweepAlert]
  · intro alerts hmem
    have h1 : sweepAlert price a = ({ a with triggered := true }, true) := by
      simp [sweepAlert, ha, ht, hp, hm]
    rw [← h1]
    exact List.mem_map_of_mem (sweepAlert price) hmem

/-- The watch of the spec scenario: `watch 0xABC above 10`. -/
def alertScenario : Alert :=
  { id := 1, token := "0xABC", condition := "above", threshold := 10,
    created := "t0", triggered := false, active := true }

theorem alert_fires_once_witness :
    sweepAlert (fun _ => some 11) alertScenario
      = ({ alertScenario with triggered := true }, true) ∧
    sweepAlert (fun _ => some 12) { alertScenario with triggered := true }
      = ({ alertScenario with triggered := true }, false) :=
  ⟨(alert_fires_once alertScenario (fun _ => some 11) 11 rfl rfl rfl
      (by decide)).1,
   (alert_fires_once alertScenario (fun _ => some 11) 11 rfl rfl rfl
      (by decide)).2.1 (fun _ => some 12)⟩

/-! ### Scoring engine (`genesis/analyst.py`, `normalize` / `score_token`)

Python floats are modelled as rationals.  A token JSON dict is modelled by
its fields relevant to `score_token`; `get` with a fallback key is one of the
`tok…` accessors.  The `createdAt` string is modelled already parsed to a
day count (`none` = missing or unparseable, both of which give `age_days = 0`
in the source); `now` is the current day count.  `round(x, 1)` is modelled as
rounding to one decimal digit. -/

structure TokenInfo where
  holders : Option Int
  holderCount : Option Int
  volume24h : Option Rat
  volume : Option Rat
  liquidity : Option Rat
  totalLiquidity : Option Rat
  price : Option Rat
  currentPrice : Option Rat
  createdAt : Option Int
  created_at : Option Int
  name : Option String
  symbol : Option String
  address : Option String
  tokenAddress : Option String

/-- `token.get("holders", token.get("holderCount", 0))`. -/
def tokHolders (t : TokenInfo) : Int :=
  match t.holders with
  | some h => h
  | none => t.holderCount.getD 0

/-- `token.get("volume24h", token.get("volume", 0))`. -/
def tokVolume (t : TokenInfo) : Rat :=
  match t.volume24h with
  | some v => v
  | none => t.volume.getD 0

/-- `token.get("liquidity", token.get("totalLiquidity", 0))`. -/
def tokLiquidity (t : TokenInfo) : Rat :=
  match t.liquidity with
  | some l => l
  | none => t.totalLiquidity.getD 0

/-- `token.get("price", token.get("currentPrice", 0))`. -/
def tokPrice (t : TokenInfo) : Rat :=
  match t.price with
  | some p => p
  | none => t.currentPrice.getD 0

/-- `token.get("createdAt", token.get("created_at", ""))`, already parsed. -/
def tokCreated (t : TokenInfo) : Option Int :=
  match t.createdAt with
  | some c => some c
  | none => t.created_at

/-- `token.get("address", token.get("tokenAddress", ""))`. -/
def tokAddress (t : TokenInfo) : String :=
  match t.address with
  | some a => a
  | none => t.tokenAddress.getD ""

/-- `normalize`: scale to the 0–100 range, clamped. -/
def normalize (value minVal maxVal : Rat) : Rat :=
  if maxVal ≤ minVal then 50
  else max 0 (min 100 ((value - minVal) / (maxVal - minVal) * 100))

/-- Python `round(x, 1)`. -/
def round1 (x : Rat) : Rat := (round (10 * x) : Int) / 10

/-- `(datetime.now() - created_dt).days`, or 0 when the creation date is
missing or unparseable. -/
def ageDays (now : Int) (t : TokenInfo) : Int :=
  match tokCreated t with
  | some c => now - c
  | none => 0

structure ScoreResult where
  name : String
  symbol : String
  address : String
  scoreHolders : Rat
  scoreVolume : Rat
  scoreLiquidity : Rat
  scoreStability : Rat
  scoreAge : Rat
  total : Rat
  grade : String
  holders : Int
  volume : Rat
  liquidity : Rat

/-- `score_token`: normalize each dimension (holders 0–200, volume 0–10000,
liquidity 0–30000, age 0–30 days, price presence), round each to one decimal,
apply the `WEIGHTS` (0.30, 0.25, 0.20, 0.15, 0.10), and map the weighted sum
to a letter grade at thresholds 80/60/40/20. -/
def score_token (now : Int) (t : TokenInfo) : ScoreResult :=
  let holder_score := normalize (tokHolders t : Rat) 0 200
  let volume_score := normalize (tokVolume t) 0 10000
  let liquidity_score := normalize (tokLiquidity t) 0 30000
  let stability_score : Rat := if 0 < tokPrice t then 50 else 0
  let age_score := normalize (ageDays now t : Rat) 0 30
  let sH := round1 holder_score
  let sV := round1 volume_score
  let sL := round1 liquidity_score
  let sS := round1 stability_score
  let sA := round1 age_score
  let weighted := sH * (3 / 10) + sV * (1 / 4) + sL * (1 / 5)
    + sS * (3 / 20) + sA * (1 / 10)
  let grade := if 80 ≤ weighted then "A"
    else if 60 ≤ weighted then "B"
    else if 40 ≤ weighted then "C"
    else if 20 ≤ weighted then "D"
    else "F"
  { name := t.name.getD "Unknown", symbol := t.symbol.getD "???",
    address := tokAddress t,
    scoreHolders := sH, scoreVolume := sV, scoreLiquidity := sL,
    scoreStability := sS, scoreAge := sA,
    total := round1 weighted, grade := grade,
    holders := tokHolders t, volume := tokVolume t,
    liquidity := tokLiquidity t }

/-- C7: `score_token` is deterministic in the input metrics: any two token
dicts with the same extracted metrics (holders, volume, liquidity, price,
creation date) scored at the same instant receive the same letter grade and
the same weighted total — there is no hidden randomness. -/
theorem score_token_deterministic (now : Int) (t₁ t₂ : TokenInfo)
    (hh : tokHolders t₁ = tokHolders t₂)
    (hv : tokVolume t₁ = tokVolume t₂)
    (hl : tokLiquidity t₁ = tokLiquidity t₂)
    (hp : tokPrice t₁ = tokPrice t₂)
    (hc : tokCreated t₁ = tokCreated t₂) :
    (score_token now t₁).grade = (score_token now t₂).grade ∧
    (score_token now t₁).total = (score_token now t₂).total := by
  have hage : ageDays now t₁ = ageDays now t₂ := by
    unfold ageDays
    rw [hc]
  constructor
  · simp only [score_token, hh, hv, hl, hp, hage]
  · simp only [score_token, hh, hv, hl, hp, hage]

/-- Two JSON shapes of the same token: the second carries the metrics under
the fallback keys (`holderCount`, `volume`, `totalLiquidity`,
`currentPrice`, `created_at`). -/
def tokenPrimary : TokenInfo :=
  { holders := some 100, holderCount := none, volume24h := some 5000,
    volume := none, liquidity := some 15000, totalLiquidity := none,
    price := some 1, currentPrice := none, createdAt := some 0,
    created_at := none, name := some "Alpha", symbol := some "ALP",
    address := some "0x1", tokenAddress := none }

def tokenFallback : TokenInfo :=
  { holders := none, holderCount := some 100, volume24h := none,
    volume := some 5000, liquidity := none, totalLiquidity := some 15000,
    price := none, currentPrice := some 1, createdAt := none,
    created_at := some 0, name := some "Beta", symbol := some "BET",
    address := none, tokenAddress := some "0x2" }

theorem score_token_deterministic_witness :
    (score_token 30 tokenPrimary).grade = (score_token 30 tokenFallback).grade ∧
    (score_token 30 tokenPrimary).total = (score_token 30 tokenFallback).total :=
  score_token_deterministic 30 tokenPrimary tokenFallback rfl rfl rfl rfl rfl

/-! ### Welcome gift (`gifter-agent.py`, `claim_welcome` branch of the chat
handler)

State: the `welcome_claims` dict (keyed by sender) and today's
`daily_{today}` counter.  `deduct_treasury` only checks the on-chain
balances; the balances, the wallet-regex match and the outcomes of the two
broadcasts (`send_fet`, `send_bnb`) are inputs.  The returned transfer list
records the broadcasts that succeeded; there is no compensation/reversal
anywhere in the source. -/

def WELCOME_FET : Rat := 150
def WELCOME_BNB : Rat := 1 / 5
def MAX_CLAIMS_PER_DAY : Nat := 100

structure GiftState where
  welcomeClaims : List String
  dailyClaims : Nat
deriving DecidableEq

/-- `has_claimed_welcome`: `sender in claims`. -/
def has_claimed_welcome (st : GiftState) (sender : String) : Bool :=
  st.welcomeClaims.contains sender

/-- `record_welcome_claim`: add the sender to the claims dict. -/
def record_welcome_claim (st : GiftState) (sender : String) : GiftState :=
  { st with welcomeClaims := sender :: st.welcomeClaims }

/-- `increment_daily_claims`. -/
def increment_daily_claims (st : GiftState) : GiftState :=
  { st with dailyClaims := st.dailyClaims + 1 }

/-- `deduct_treasury(fet, bnb)`: balance sufficiency check only. -/
def deduct_treasury (fetBalance bnbBalance fet bnb : Rat) : Bool :=
  decide (fet ≤ fetBalance) && decide (bnb ≤ bnbBalance)

inductive ClaimReply where
  | alreadyClaimed | needWallet | dailyLimitReached | treasuryLow
  | fetFailed | bnbFailedFetSent | success
deriving DecidableEq

/-- A transfer that was broadcast successfully. -/
inductive Transfer where
  | fet (recipient : String) (amount : Rat)
  | bnb (recipient : String) (amount : Rat)
deriving DecidableEq

/-- The `claim_welcome` branch: guards in source order (already claimed,
wallet regex, daily cap, treasury), then FET transfer, then BNB transfer.
When the BNB transfer fails after the FET transfer succeeded, the success
record is still written ("Still record claim since FET was sent"). -/
def handle_claim_welcome (st : GiftState) (sender evm : String)
    (walletOk : Bool) (fetBalance bnbBalance : Rat) (fetOk bnbOk : Bool) :
    ClaimReply × GiftState × List Transfer :=
  if has_claimed_welcome st sender then (.alreadyClaimed, st, [])
  else if !walletOk then (.needWallet, st, [])
  else if MAX_CLAIMS_PER_DAY ≤ st.dailyClaims then (.dailyLimitReached, st, [])
  else if !(deduct_treasury fetBalance bnbBalance WELCOME_FET WELCOME_BNB) then
    (.treasuryLow, st, [])
  else if !fetOk then (.fetFailed, st, [])
  else if !bnbOk then
    (.bnbFailedFetSent,
     increment_daily_claims (record_welcome_claim st sender),
     [.fet evm WELCOME_FET])
  else
    (.success,
     increment_daily_claims (record_welcome_claim st sender),
     [.fet evm WELCOME_FET, .bnb evm WELCOME_BNB])

/-- C8: when the FET transfer succeeds and the BNB transfer fails, the FET
transfer stays in the effect trace (it is not reversed), the sender is still
recorded as having claimed, the daily counter is incremented, and any later
claim attempt by that sender is rejected as already claimed. -/
theorem welcome_claim_partial_failure (st : GiftState) (sender evm : String)
    (fetBalance bnbBalance : Rat)
    (hnew : has_claimed_welcome st sender = false)
    (hday : st.dailyClaims < MAX_CLAIMS_PER_DAY)
    (hfet : WELCOME_FET ≤ fetBalance) (hbnb : WELCOME_BNB ≤ bnbBalance) :
    (handle_claim_welcome st sender evm true fetBalance bnbBalance true false).1
      = .bnbFailedFetSent ∧
    (handle_claim_welcome st sender evm true fetBalance bnbBalance true false).2.2
      = [.fet evm WELCOME_FET] ∧
    has_claimed_welcome
      (handle_claim_welcome st sender evm true fetBalance bnbBalance true false).2.1
      sender = true ∧
    (handle_claim_welcome st sender evm true fetBalance bnbBalance true false).2.1.dailyClaims
      = st.dailyClaims + 1 ∧
    (∀ (walletOk fetOk bnbOk : Bool) (fb bb : Rat),
      handle_claim_welcome
        (handle_claim_welcome st sender evm true fetBalance bnbBalance true false).2.1
        sender evm walletOk fb bb fetOk bnbOk
        = (.alreadyClaimed,
           (handle_claim_welcome st sender evm true fetBalance bnbBalance true false).2.1,
           [])) := by
  have hd : deduct_treasury fetBalance bnbBalance WELCOME_FET WELCOME_BNB = true := by
    simp [deduct_treasury, hfet, hbnb]
  have hdaylt : ¬ (MAX_CLAIMS_PER_DAY ≤ st.dailyClaims) := by omega
  have hrun : handle_claim_welcome st sender evm true fetBalance bnbBalance true false
      = (.bnbFailedFetSent,
         increment_daily_claims (record_welcome_claim st sender),
         [.fet evm WELCOME_FET]) := by
    simp [handle_claim_welcome, hnew, hdaylt, hd]
  have hclaimed : has_claimed_welcome
      (increment_daily_claims (record_welcome_claim st sender)) sender = true := by
    simp [has_claimed_welcome, increment_daily_claims, record_welcome_claim]
  refine ⟨by rw [hrun], by rw [hrun], by rw [hrun]; exact hclaimed,
    by rw [hrun]; rfl, ?_⟩
  intro walletOk fetOk bnbOk fb bb
  rw [hrun]
  simp [handle_claim_welcome, hclaimed]

theorem welcome_claim_partial_failure_witness :
    (handle_claim_welcome ⟨[], 0⟩ "agent1qsender" "0xabc" true
        WELCOME_FET WELCOME_BNB true false).1
      = ClaimReply.bnbFailedFetSent ∧
    (handle_claim_welcome ⟨[], 0⟩ "agent1qsender" "0xabc" true
        WELCOME_FET WELCOME_BNB true false).2.2
      = [Transfer.fet "0xabc" WELCOME_FET] :=
  ⟨(welcome_claim_partial_failure ⟨[], 0⟩ "agent1qsender" "0xabc"
      WELCOME_FET WELCOME_BNB (by decide) (by decide)
      (le_refl WELCOME_FET) (le_refl WELCOME_BNB)).1,
   (welcome_claim_partial_failure ⟨[], 0⟩ "agent1qsender" "0xabc"
      WELCOME_FET WELCOME_BNB (by decide) (by decide)
      (le_refl WELCOME_FET) (le_refl WELCOME_BNB)).2.1⟩

/-! ### Upstream-failure defaults (`data-agent.py`, `check_token_holdings`
and `DataFetcher.get_all_tokens`)

The HTTP call is modelled by its outcome: `exn` for a raised exception
(timeout, connection error — and a JSON parse error is folded into the body
being `none`, both land in the same `except` / non-200 fallthrough), or a
response with a status code and an optional parsed body.  Both functions are
total in this model: every outcome maps to a value, mirroring the
catch-all `except` — no exception propagates to the caller. -/

inductive ApiResult (β : Type) where
  | exn : ApiResult β
  | resp (status : Nat) (body : Option β) : ApiResult β

/-- Body of `GET .../holders`: `data.get("balance", 0)`. -/
structure HoldersBody where
  balance : Option Int

/-- Body of `GET .../tokens`: `data.get("success")` and `data.get("data")`. -/
structure TokensBody (α : Type) where
  success : Bool
  data : Option (List α)

/-- `check_token_holdings`: no token configured → "free"; cached tier wins;
otherwise on a 200 with a parseable body compute the tier from the balance
and cache it for 300s; every failure path degrades to "free". -/
def check_token_holdings (tokenAddress userAddress : String) (threshold : Int)
    (c : Cache String) (now : Int) (api : ApiResult HoldersBody) :
    String × Cache String :=
  if tokenAddress = "" then ("free", c)
  else
    match Cache.get c now ("tier:" ++ userAddress) with
    | (some t, c') => (t, c')
    | (none, c') =>
        match api with
        | .exn => ("free", c')
        | .resp status body =>
            if status = 200 then
              match body with
              | some b =>
                  let tier := if threshold ≤ b.balance.getD 0 then "premium"
                    else "free"
                  (tier, c'.set now ("tier:" ++ userAddress) tier 300)
              | none => ("free", c')
            else ("free", c')

/-- `DataFetcher.get_all_tokens`: cached list wins; on a 200 with a parseable
body take `data` when `success` else `[]`, cache for 120s; every failure path
returns `[]`. -/
def get_all_tokens {α : Type} (c : Cache (List α)) (now : Int)
    (api : ApiResult (TokensBody α)) : List α × Cache (List α) :=
  match Cache.get c now "all_tokens" with
  | (some v, c') => (v, c')
  | (none, c') =>
      match api with
      | .exn => ([], c')
      | .resp status body =>
          if status = 200 then
            match body with
            | some b =>
                let tokens := if b.success then b.data.getD [] else []
                (tokens, c'.set now "all_tokens" tokens 120)
            | none => ([], c')
          else ([], c')

/-- An upstream failure for the holders call: exception, non-200 status, or
malformed body. -/
def apiFailed {β : Type} : ApiResult β → Prop
  | .exn => True
  | .resp status body => status ≠ 200 ∨ body = none

/-- An upstream failure for the tokens call: additionally an
`success = false` JSON body. -/
def tokensFailed {α : Type} : ApiResult (TokensBody α) → Prop
  | .exn => True
  | .resp status body =>
      status ≠ 200 ∨ body = none ∨ ∃ b, body = some b ∧ b.success = false

/-- C9: on a cache miss, every failed upstream outcome (exception, non-200,
malformed or unsuccessful body) makes `check_token_holdings` return the safe
default `"free"` and `get_all_tokens` return `[]`; both functions are total
(no exception propagates). -/
theorem upstream_failure_safe_defaults {α : Type}
    (tokenAddress userAddress : String) (threshold : Int)
    (cs : Cache String) (ct : Cache (List α)) (now : Int)
    (apiH : ApiResult HoldersBody) (apiT : ApiResult (TokensBody α))
    (hmissH : (Cache.get cs now ("tier:" ++ userAddress)).1 = none)
    (hmissT : (Cache.get ct now "all_tokens").1 = none) :
    (apiFailed apiH →
      (check_token_holdings tokenAddress userAddress threshold cs now apiH).1
        = "free") ∧
    (tokensFailed apiT → (get_all_tokens ct now apiT).1 = []) := by
  have hpairH : Cache.get cs now ("tier:" ++ userAddress)
      = (none, (Cache.get cs now ("tier:" ++ userAddress)).2) := by
    rw [← hmissH]
  have hpairT : Cache.get ct now "all_tokens"
      = (none, (Cache.get ct now "all_tokens").2) := by
    rw [← hmissT]
  constructor
  · intro hfail
    by_cases htok : tokenAddress = ""
    · simp [check_token_holdings, htok]
    · rw [check_token_holdings, if_neg htok, hpairH]
      cases apiH with
      | exn => rfl
      | resp status body =>
          rcases hfail with h200 | hbody
          · simp [h200]
          · subst hbody
            by_cases h : status = 200
            · simp [h]
            · simp [h]
  · intro hfail
    rw [get_all_tokens, hpairT]
    cases apiT with
    | exn => rfl
    | resp status body =>
        rcases hfail with h200 | hbody | hsucc
        · simp [h200]
        · subst hbody
          by_cases h : status = 200
          · simp [h]
          · simp [h]
        · obtain ⟨b, hb, hbs⟩ := hsucc
          subst hb
          by_cases h : status = 200
          · simp [h, hbs]
          · simp [h]

theorem upstream_failure_safe_defaults_witness :
    (check_token_holdings "0xTOKEN" "0xUSER" 1000
      (Cache.empty String 1000) 0 ApiResult.exn).1 = "free" ∧
    (get_all_tokens (Cache.empty (List Nat) 1000) 0
      (ApiResult.resp 500 none)).1 = [] :=
  ⟨(upstream_failure_safe_defaults "0xTOKEN" "0xUSER" 1000
      (Cache.empty String 1000) (Cache.empty (List Nat) 1000) 0
      ApiResult.exn (ApiResult.resp 500 none) rfl rfl).1 trivial,
   (upstream_failure_safe_defaults "0xTOKEN" "0xUSER" 1000
      (Cache.empty String 1000) (Cache.empty (List Nat) 1000) 0
      ApiResult.exn (ApiResult.resp 500 none) rfl rfl).2 (Or.inl (by decide))⟩

end AgentToolkit
